import Mathlib

/-!
Shallow embedding of `utils.py` from `dnn-mode-connectivity`: the training /
evaluation harness and batch-normalization recalibration utilities.

Conventions of the embedding:
* Python floats are modelled as rationals (`ℚ`); Python `/` is `ℚ` division.
* A tensor is a device tag plus its payload; `Tensor.to` models `torch.Tensor.to`,
  which returns a copy on the target device and does NOT mutate its receiver.
* A model is a list of submodules (batch-normalization submodules carry their
  running statistics and momentum; other submodules are opaque), a training-mode
  flag, the device its parameters live on, the parameter payloads and their
  gradient slots.
* External primitives the source consumes as opaque collaborators (the forward
  pass, the loss criterion, autograd's backward + optimizer step, `torch.sqrt`,
  `F.softmax`) are parameters of the embedded functions.
-/

namespace DnnModeConnectivity

/-- A compute device tag (`'cuda'` / `'cpu'` in the source). -/
inductive Device where
  | cpu
  | cuda
deriving DecidableEq, Repr

/-- A batched tensor: the device it resides on and its rows of payload data.
`data` is one row per sample, so `size0` is `tensor.size(0)`. -/
structure Tensor where
  device : Device
  data : List (List ℚ)
deriving DecidableEq, Repr

/-- `torch.Tensor.to(device)`: returns a copy on `d`; the receiver is unchanged. -/
def Tensor.to (t : Tensor) (d : Device) : Tensor :=
  { t with device := d }

/-- `tensor.size(0)`: the batch dimension. -/
def Tensor.size0 (t : Tensor) : ℕ :=
  t.data.length

/-- An integer-label tensor (classification targets). -/
structure LTensor where
  device : Device
  labels : List ℕ
deriving DecidableEq, Repr

/-- The mutable state of a batch-normalization submodule. -/
structure BNState where
  momentum : ℚ
  runningMean : ℚ
  runningVar : ℚ
  numBatchesTracked : ℕ
deriving DecidableEq, Repr

/-- A submodule of the model: either a batch-normalization layer (of either of
the two recognized class hierarchies, `torch.nn.modules.batchnorm._BatchNorm`
or `curves._BatchNorm`) or an opaque non-BN submodule. -/
inductive Module where
  | bn (s : BNState)
  | plain (state : ℚ)
deriving DecidableEq, Repr

/-- `isbatchnorm(module)`: recognizes batch-normalization submodules. -/
def isbatchnorm : Module → Bool
  | .bn _ => true
  | .plain _ => false

/-- The model: submodule list, train/eval mode flag, parameter device,
parameter payloads and their gradient slots. -/
structure Model where
  modules : List Module
  training : Bool
  paramDevice : Device
  params : List (List ℚ)
  grads : List (Option (List ℚ))
deriving DecidableEq, Repr

/-- `l2_regularizer(weight_decay)` applied to a model's parameter list.
`sqrt` stands for the external `torch.sqrt` primitive. The source accumulates
`l2 += torch.sqrt(torch.sum(p ** 2))` over `model.parameters()` and returns
`0.5 * weight_decay * l2`. -/
def l2_regularizer (sqrt : ℚ → ℚ) (weight_decay : ℚ) : List (List ℚ) → ℚ :=
  fun params =>
    let l2 := params.foldl (fun acc p => acc + sqrt ((p.map (fun x => x ^ 2)).sum)) 0
    0.5 * weight_decay * l2

/-- The claim's formula for `l2_regularizer`: `0.5 * weight_decay * Σ_p ‖p‖₂`,
where `‖p‖₂ = sqrt (Σ x ∈ p, x²)` is the per-parameter L2 norm. -/
def specL2 (sqrt : ℚ → ℚ) (weight_decay : ℚ) (params : List (List ℚ)) : ℚ :=
  0.5 * weight_decay * (params.map (fun p => sqrt ((p.map (fun x => x ^ 2)).sum))).sum

/-- `cyclic_learning_rate(epoch, cycle, alpha_1, alpha_2)` applied to the
fractional progress `i`. Python's `%` on an `int` with a positive modulus
agrees with `Int.emod`. -/
def cyclic_learning_rate (epoch cycle : ℤ) (alpha_1 alpha_2 : ℚ) (i : ℚ) : ℚ :=
  let t : ℚ := (((epoch % cycle : ℤ) : ℚ) + i) / (cycle : ℚ)
  if t < 1 / 2 then
    alpha_1 * (1 - 2 * t) + alpha_2 * 2 * t
  else
    alpha_1 * (2 * t - 1) + alpha_2 * (2 - 2 * t)

/-! ### BN recalibration engine (`update_bn` and helpers) -/

/-- `check_bn(model)`: `model.apply` visits every submodule and a flag is set
whenever `isbatchnorm` holds, so the result is `true` iff some submodule is a
batch-normalization layer. -/
def check_bn (model : Model) : Bool :=
  model.modules.any isbatchnorm

/-- `reset_bn(module)`: on a batch-normalization submodule, calls
`reset_running_stats()`, which reinitializes the running mean to 0, the running
variance to 1 and the batch counter to 0; the momentum is untouched. Other
submodules are unchanged. -/
def reset_bn : Module → Module
  | .bn s => .bn { s with runningMean := 0, runningVar := 1, numBatchesTracked := 0 }
  | m => m

/-- `_get_momenta` accumulated over the submodule tree: the Momenta Snapshot,
positionally keyed (the source keys the dictionary by submodule identity and
the submodule list never changes during the replay, so position is identity).
Non-BN submodules have no entry (`none`). -/
def getMomenta (ms : List Module) : List (Option ℚ) :=
  ms.map fun m =>
    match m with
    | .bn s => some s.momentum
    | .plain _ => none

/-- `_set_momenta` on one submodule: a batch-normalization submodule reads its
snapshot entry back into its momentum; others are unchanged. -/
def restoreMomentum : Module → Option ℚ → Module
  | .bn s, some v => .bn { s with momentum := v }
  | m, _ => m

/-- `model.apply(lambda module: _set_momenta(module, momenta))`: walk the
submodules alongside the positional snapshot. -/
def setMomenta : List Module → List (Option ℚ) → List Module
  | [], _ => []
  | ms, [] => ms
  | m :: ms, v :: vs => restoreMomentum m v :: setMomenta ms vs

/-- One replay batch as `update_bn` consumes it: its size (`input.size(0)`) and
the batch statistics the forward pass would fold into the running estimates. -/
structure BNBatch where
  size : ℕ
  mean : ℚ
  var : ℚ
deriving DecidableEq, Repr

/-- Effect of `model(sample_input)` in training mode on one submodule: a
batch-normalization layer folds the batch statistics into its running
estimates with decay `momentum` (PyTorch training-mode BN semantics);
other submodules keep their state. -/
def bnForward (b : BNBatch) : Module → Module
  | .bn s => .bn { s with
      runningMean := (1 - s.momentum) * s.runningMean + s.momentum * b.mean,
      runningVar := (1 - s.momentum) * s.runningVar + s.momentum * b.var,
      numBatchesTracked := s.numBatchesTracked + 1 }
  | m => m

/-- `module.momentum = momentum` applied over `momenta.keys()`, i.e. over every
batch-normalization submodule. -/
def setBNMomentum (v : ℚ) : Module → Module
  | .bn s => .bn { s with momentum := v }
  | m => m

/-- The replay loop of `update_bn` (lines 257–269): for each batch, compute
`momentum = batch_size / (num_samples + batch_size)`, assign it to every
batch-normalization submodule, run the forward pass, and add the batch size to
`num_samples`. Returns the final submodule list, the final `num_samples`, and
the trace of momentum values assigned (in order). -/
def update_bn_loop (ms : List Module) (numSamples : ℕ) :
    List BNBatch → List Module × ℕ × List ℚ
  | [] => (ms, numSamples, [])
  | b :: rest =>
    let momentum : ℚ := (b.size : ℚ) / ((numSamples : ℚ) + (b.size : ℚ))
    let ms1 := ms.map (setBNMomentum momentum)
    let ms2 := ms1.map (bnForward b)
    let out := update_bn_loop ms2 (numSamples + b.size) rest
    (out.1, out.2.1, momentum :: out.2.2)

/-- `update_bn(loader, model)`: early-return no-op when the model has no
batch-normalization submodule; otherwise switch to training mode, reset running
statistics, snapshot the momenta, replay the loader, and restore the momenta. -/
def update_bn (loader : List BNBatch) (model : Model) : Model :=
  if ¬ check_bn model then model
  else
    let model1 := { model with training := true }
    let ms0 := model1.modules.map reset_bn
    let momenta := getMomenta ms0
    let out := update_bn_loop ms0 0 loader
    { model1 with modules := setMomenta out.1 momenta }

/-- The momentum values `update_bn` assigns during its replay, in order. -/
def update_bn_trace (loader : List BNBatch) (model : Model) : List ℚ :=
  if ¬ check_bn model then []
  else (update_bn_loop (model.modules.map reset_bn) 0 loader).2.2

/-- The value of `num_samples` when the replay of `update_bn` finishes. -/
def update_bn_numSamples (loader : List BNBatch) (model : Model) : ℕ :=
  if ¬ check_bn model then 0
  else (update_bn_loop (model.modules.map reset_bn) 0 loader).2.1

/-- The claim's momentum schedule: batch `b` arriving after `n` samples have
been seen is given momentum `b / (n + b)`, and `n` then grows by `b`. -/
def specMomenta (n : ℕ) : List ℕ → List ℚ
  | [] => []
  | b :: rest => ((b : ℚ) / ((n : ℚ) + (b : ℚ))) :: specMomenta (n + b) rest

/-! ### Lemmas about the replay loop -/

lemma isbatchnorm_setBNMomentum (v : ℚ) (m : Module) :
    isbatchnorm (setBNMomentum v m) = isbatchnorm m := by
  cases m <;> rfl

lemma isbatchnorm_bnForward (b : BNBatch) (m : Module) :
    isbatchnorm (bnForward b m) = isbatchnorm m := by
  cases m <;> rfl

lemma map_isbatchnorm_map (f : Module → Module)
    (hf : ∀ m, isbatchnorm (f m) = isbatchnorm m) (ms : List Module) :
    (ms.map f).map isbatchnorm = ms.map isbatchnorm := by
  induction ms with
  | nil => rfl
  | cons m rest ih => simp [hf, ih]

lemma update_bn_loop_trace (bs : List BNBatch) (ms : List Module) (n : ℕ) :
    (update_bn_loop ms n bs).2.2 = specMomenta n (bs.map BNBatch.size) := by
  induction bs generalizing ms n with
  | nil => rfl
  | cons b rest ih => simp [update_bn_loop, specMomenta, ih]

lemma update_bn_loop_numSamples (bs : List BNBatch) (ms : List Module) (n : ℕ) :
    (update_bn_loop ms n bs).2.1 = n + (bs.map BNBatch.size).sum := by
  induction bs generalizing ms n with
  | nil => simp [update_bn_loop]
  | cons b rest ih => simp [update_bn_loop, ih]; ring

lemma update_bn_loop_shape (bs : List BNBatch) (ms : List Module) (n : ℕ) :
    (update_bn_loop ms n bs).1.map isbatchnorm = ms.map isbatchnorm := by
  induction bs generalizing ms n with
  | nil => rfl
  | cons b rest ih =>
    simp only [update_bn_loop]
    rw [ih, map_isbatchnorm_map _ (isbatchnorm_bnForward b),
      map_isbatchnorm_map _ (isbatchnorm_setBNMomentum _)]

lemma getMomenta_reset (ms : List Module) :
    getMomenta (ms.map reset_bn) = getMomenta ms := by
  induction ms with
  | nil => rfl
  | cons m rest ih => cases m <;> simp [getMomenta, reset_bn] <;> simpa [getMomenta] using ih

lemma getMomenta_setMomenta (ms' ms : List Module)
    (h : ms'.map isbatchnorm = ms.map isbatchnorm) :
    getMomenta (setMomenta ms' (getMomenta ms)) = getMomenta ms := by
  induction ms' generalizing ms with
  | nil =>
    have : ms = [] := by
      cases ms with
      | nil => rfl
      | cons m rest => simp at h
    subst this; rfl
  | cons m' rest' ih =>
    cases ms with
    | nil => simp at h
    | cons m rest =>
      simp only [List.map_cons, List.cons.injEq] at h
      obtain ⟨hm, hrest⟩ := h
      cases m <;> cases m' <;> simp [isbatchnorm] at hm ⊢ <;>
        simp [getMomenta, setMomenta, restoreMomentum] <;>
        simpa [getMomenta] using ih rest hrest

/-- A concrete model with one batch-normalization submodule, for instantiating
hypotheses on concrete inputs. -/
def sampleBNModel : Model :=
  { modules := [.bn { momentum := 1/10, runningMean := 5, runningVar := 2, numBatchesTracked := 3 },
                .plain 7],
    training := false, paramDevice := .cpu, params := [[1, 2]], grads := [none] }

/-- A concrete model without batch-normalization submodules. -/
def samplePlainModel : Model :=
  { modules := [.plain 7], training := false, paramDevice := .cpu,
    params := [[1, 2]], grads := [none] }

/-- C1: during `update_bn`'s replay, each batch of size `b` arriving after `n`
samples is processed with every batch-normalization momentum set to
`b / (n + b)` before its forward pass, `num_samples` grows by `b` per batch,
and a loader of 4 batches of size 2 yields the momentum sequence
`1, 1/2, 1/3, 1/4`. -/
theorem update_bn_momentum_schedule (loader : List BNBatch) (model : Model)
    (h : check_bn model = true) :
    update_bn_trace loader model = specMomenta 0 (loader.map BNBatch.size) ∧
    update_bn_numSamples loader model = (loader.map BNBatch.size).sum ∧
    (∀ b₁ b₂ b₃ b₄ : BNBatch, b₁.size = 2 → b₂.size = 2 → b₃.size = 2 → b₄.size = 2 →
      update_bn_trace [b₁, b₂, b₃, b₄] model = [1, 1/2, 1/3, 1/4]) := by
  refine ⟨?_, ?_, ?_⟩
  · simp [update_bn_trace, h, update_bn_loop_trace]
  · simp [update_bn_numSamples, h, update_bn_loop_numSamples]
  · intro b₁ b₂ b₃ b₄ h1 h2 h3 h4
    simp [update_bn_trace, h, update_bn_loop_trace, specMomenta, h1, h2, h3, h4]
    norm_num

theorem update_bn_momentum_schedule_witness :
    check_bn sampleBNModel = true ∧
    update_bn_trace [⟨2, 0, 1⟩, ⟨2, 0, 1⟩, ⟨2, 0, 1⟩, ⟨2, 0, 1⟩] sampleBNModel
      = [1, 1/2, 1/3, 1/4] :=
  ⟨rfl, (update_bn_momentum_schedule [⟨2, 0, 1⟩, ⟨2, 0, 1⟩, ⟨2, 0, 1⟩, ⟨2, 0, 1⟩]
      sampleBNModel rfl).2.2 _ _ _ _ rfl rfl rfl rfl⟩

/-- C2: for a model with at least one batch-normalization submodule and any
loader (empty included), `update_bn` leaves every batch-normalization
submodule's momentum equal to its pre-call snapshotted value. -/
theorem update_bn_restores_momenta (loader : List BNBatch) (model : Model)
    (h : check_bn model = true) :
    getMomenta (update_bn loader model).modules = getMomenta model.modules := by
  simp only [update_bn, h, Bool.true_eq_false, not_true_eq_false, if_false]
  rw [getMomenta_setMomenta _ _ (update_bn_loop_shape loader _ 0), getMomenta_reset]

theorem update_bn_restores_momenta_witness :
    check_bn sampleBNModel = true ∧
    getMomenta (update_bn [] sampleBNModel).modules = getMomenta sampleBNModel.modules :=
  ⟨rfl, update_bn_restores_momenta [] sampleBNModel rfl⟩

/-- C3: on a model without batch-normalization submodules, `update_bn` is a
true no-op: it returns with the model state (submodules, running statistics,
momenta, train/eval mode, parameters, gradients) exactly as it was. -/
theorem update_bn_noop_without_bn (loader : List BNBatch) (model : Model)
    (h : check_bn model = false) :
    update_bn loader model = model := by
  simp [update_bn, h]

theorem update_bn_noop_without_bn_witness :
    check_bn samplePlainModel = false ∧
    update_bn [⟨2, 0, 1⟩] samplePlainModel = samplePlainModel :=
  ⟨rfl, update_bn_noop_without_bn [⟨2, 0, 1⟩] samplePlainModel rfl⟩

/-! ### Regularizer factory -/

lemma foldl_add_map (f : List ℚ → ℚ) (ps : List (List ℚ)) (a : ℚ) :
    ps.foldl (fun acc p => acc + f p) a = a + (ps.map f).sum := by
  induction ps generalizing a with
  | nil => simp
  | cons p rest ih => simp [ih]; ring

/-- C9: `l2_regularizer weight_decay` computes exactly
`0.5 * weight_decay * Σ_p sqrt (Σ x ∈ p, x²)` — the sum of per-parameter L2
norms, not the sum of squared norms — and at `weight_decay = 0` it returns `0`
for every parameter list and every square-root primitive. -/
theorem l2_regularizer_formula (sqrt : ℚ → ℚ) (weight_decay : ℚ)
    (params : List (List ℚ)) :
    l2_regularizer sqrt weight_decay params = specL2 sqrt weight_decay params ∧
    l2_regularizer sqrt 0 params = 0 := by
  constructor
  · simp [l2_regularizer, specL2, foldl_add_map]
  · simp [l2_regularizer]

/-! ### Cyclic learning-rate schedule -/

/-- The phase `t = ((epoch % cycle) + i) / cycle` of the cyclic schedule. -/
def cyclicT (epoch cycle : ℤ) (i : ℚ) : ℚ :=
  (((epoch % cycle : ℤ) : ℚ) + i) / (cycle : ℚ)

lemma cyclic_learning_rate_eq (epoch cycle : ℤ) (a1 a2 : ℚ) (i : ℚ) :
    cyclic_learning_rate epoch cycle a1 a2 i =
      if cyclicT epoch cycle i < 1 / 2 then
        a1 * (1 - 2 * cyclicT epoch cycle i) + a2 * 2 * cyclicT epoch cycle i
      else
        a1 * (2 * cyclicT epoch cycle i - 1) + a2 * (2 - 2 * cyclicT epoch cycle i) :=
  rfl

/-- C7: the schedule returned by `cyclic_learning_rate` is the triangular wave
`alpha_1 * (1 - 2t) + alpha_2 * 2t` for `t < 1/2` and
`alpha_1 * (2t - 1) + alpha_2 * (2 - 2t)` for `t ≥ 1/2`, where
`t = ((epoch % cycle) + i) / cycle`; both branch formulas evaluate to
`alpha_2` at `t = 1/2`, so the wave has no discontinuity there. -/
theorem cyclic_learning_rate_piecewise (epoch cycle : ℤ) (alpha_1 alpha_2 : ℚ)
    (i : ℚ) (hc : 0 < cycle) (hi0 : 0 ≤ i) (hi1 : i < 1) :
    (cyclicT epoch cycle i < 1 / 2 →
      cyclic_learning_rate epoch cycle alpha_1 alpha_2 i
        = alpha_1 * (1 - 2 * cyclicT epoch cycle i)
          + alpha_2 * (2 * cyclicT epoch cycle i)) ∧
    (1 / 2 ≤ cyclicT epoch cycle i →
      cyclic_learning_rate epoch cycle alpha_1 alpha_2 i
        = alpha_1 * (2 * cyclicT epoch cycle i - 1)
          + alpha_2 * (2 - 2 * cyclicT epoch cycle i)) ∧
    (∀ t : ℚ, t = 1 / 2 →
      alpha_1 * (1 - 2 * t) + alpha_2 * (2 * t) = alpha_2 ∧
      alpha_1 * (2 * t - 1) + alpha_2 * (2 - 2 * t) = alpha_2) := by
  refine ⟨?_, ?_, ?_⟩
  · intro ht; rw [cyclic_learning_rate_eq, if_pos ht]; ring
  · intro ht; rw [cyclic_learning_rate_eq, if_neg (not_lt.mpr ht)]
  · rintro t rfl
    constructor <;> ring

theorem cyclic_learning_rate_piecewise_witness :
    (0 : ℤ) < 2 ∧ (0 : ℚ) ≤ 0 ∧ (0 : ℚ) < 1 ∧
    (cyclicT 0 2 0 < 1 / 2 →
      cyclic_learning_rate 0 2 3 5 0 = 3 * (1 - 2 * cyclicT 0 2 0) + 5 * (2 * cyclicT 0 2 0)) := by
  have h := cyclic_learning_rate_piecewise 0 2 3 5 0 (by norm_num) le_rfl (by norm_num)
  exact ⟨by norm_num, le_rfl, by norm_num, h.1⟩

/-- C8 fails as stated: the schedule need not equal `alpha_1` at `i = 0` when
the epoch is not at the start of its cycle. With `epoch = 1`, `cycle = 2`,
`alpha_1 = 0`, `alpha_2 = 1`, the phase at `i = 0` is already `t = 1/2`, so
the schedule returns `alpha_2 = 1 ≠ 0 = alpha_1`; moreover over `i ∈ [0,1)`
of a single epoch the phase `t` only sweeps part of the cycle, so `t = 1/2`
need not be reached at all. -/
theorem cyclic_learning_rate_at_zero_counterexample :
    cyclic_learning_rate 1 2 0 1 0 = 1 ∧ (1 : ℚ) ≠ 0 := by
  constructor
  · rw [cyclic_learning_rate_eq]
    norm_num [cyclicT]
  · norm_num

/-- C8 amended: write `t = ((epoch % cycle) + i) / cycle`. For `cycle > 0` and
`alpha_1 ≤ alpha_2`: (a) the schedule equals `alpha_1` at `i = 0` when the
epoch is at the start of its cycle (`epoch % cycle = 0`); (b) over `i ∈ [0,1)`
the schedule never exceeds `alpha_2`; (c) it equals `alpha_2` when `t = 1/2`,
and (d) for `alpha_1 < alpha_2` exactly then; (e) in the last epoch of a cycle
(`epoch % cycle = cycle - 1`) the value at `i = 1 - ε` is
`alpha_1 + (alpha_2 - alpha_1) * (2ε / cycle)`, which tends to `alpha_1` as
`ε → 0` (cycle boundaries meet at the lower bound). -/
theorem cyclic_learning_rate_bounds (epoch cycle : ℤ) (alpha_1 alpha_2 : ℚ)
    (i : ℚ) (hc : 0 < cycle) (ha : alpha_1 ≤ alpha_2) (hi0 : 0 ≤ i) (hi1 : i < 1) :
    (epoch % cycle = 0 → cyclic_learning_rate epoch cycle alpha_1 alpha_2 0 = alpha_1) ∧
    cyclic_learning_rate epoch cycle alpha_1 alpha_2 i ≤ alpha_2 ∧
    (cyclicT epoch cycle i = 1 / 2 →
      cyclic_learning_rate epoch cycle alpha_1 alpha_2 i = alpha_2) ∧
    (alpha_1 < alpha_2 →
      (cyclic_learning_rate epoch cycle alpha_1 alpha_2 i = alpha_2 ↔
        cyclicT epoch cycle i = 1 / 2)) ∧
    (∀ ε : ℚ, 0 < ε → ε ≤ 1 → ε ≤ (cycle : ℚ) / 2 → epoch % cycle = cycle - 1 →
      cyclic_learning_rate epoch cycle alpha_1 alpha_2 (1 - ε)
        = alpha_1 + (alpha_2 - alpha_1) * (2 * ε / (cycle : ℚ))) := by
  have hcQ : (0 : ℚ) < (cycle : ℚ) := by exact_mod_cast hc
  refine ⟨?_, ?_, ?_, ?_, ?_⟩
  · intro h
    have ht : cyclicT epoch cycle 0 = 0 := by
      rw [cyclicT, h]
      norm_num
    rw [cyclic_learning_rate_eq, ht]
    norm_num
  · rw [cyclic_learning_rate_eq]
    split_ifs with ht
    · nlinarith [mul_nonneg (sub_nonneg.mpr ha)
        (by linarith : (0 : ℚ) ≤ 1 - 2 * cyclicT epoch cycle i)]
    · push_neg at ht
      nlinarith [mul_nonneg (sub_nonneg.mpr ha)
        (by linarith : (0 : ℚ) ≤ 2 * cyclicT epoch cycle i - 1)]
  · intro h
    rw [cyclic_learning_rate_eq, h]
    norm_num
  · intro hlt
    constructor
    · intro hval
      rw [cyclic_learning_rate_eq] at hval
      by_cases ht : cyclicT epoch cycle i < 1 / 2
      · rw [if_pos ht] at hval
        have hz : (alpha_2 - alpha_1) * (1 - 2 * cyclicT epoch cycle i) = 0 := by
          linear_combination -hval
        have hpos : 0 < (alpha_2 - alpha_1) * (1 - 2 * cyclicT epoch cycle i) :=
          mul_pos (sub_pos.mpr hlt) (by linarith)
        exact absurd hz (ne_of_gt hpos)
      · rw [if_neg ht] at hval
        have hz : (alpha_1 - alpha_2) * (2 * cyclicT epoch cycle i - 1) = 0 := by
          linear_combination hval
        rcases mul_eq_zero.mp hz with h1 | h2
        · exact absurd h1 (sub_ne_zero.mpr (ne_of_lt hlt))
        · linarith
    · intro h
      rw [cyclic_learning_rate_eq, h]
      norm_num
  · intro ε hε0 hε1 hεc hmod
    have htval : cyclicT epoch cycle (1 - ε) = 1 - ε / (cycle : ℚ) := by
      rw [cyclicT, hmod]
      push_cast
      field_simp
    have hcond : ¬(1 - ε / (cycle : ℚ) < 1 / 2) := by
      rw [not_lt]
      have hδ : ε / (cycle : ℚ) ≤ 1 / 2 := (div_le_iff hcQ).mpr (by linarith)
      linarith
    rw [cyclic_learning_rate_eq, htval, if_neg hcond]
    field_simp
    ring

theorem cyclic_learning_rate_bounds_witness :
    (0 : ℤ) < 2 ∧ (0 : ℚ) ≤ 1 ∧ (0 : ℚ) ≤ 0 ∧ (0 : ℚ) < 1 ∧
    cyclic_learning_rate 0 2 0 1 0 ≤ 1 := by
  have h := cyclic_learning_rate_bounds 0 2 0 1 0 (by norm_num) (by norm_num)
    le_rfl (by norm_num)
  exact ⟨by norm_num, by norm_num, le_rfl, by norm_num, h.2.1⟩

/-! ### Train and eval loops -/

/-- An optimizer handle: its parameter groups' learning-rate fields. -/
structure Optimizer where
  lrGroups : List ℚ
deriving DecidableEq, Repr

/-- `adjust_learning_rate(optimizer, lr)`: set `lr` on every parameter group
and return the applied value. -/
def adjust_learning_rate (opt : Optimizer) (lr : ℚ) : Optimizer × ℚ :=
  ({ lrGroups := opt.lrGroups.map fun _ => lr }, lr)

/-- `optimizer.zero_grad()`: clear the gradient slot of every parameter. -/
def zeroGrad (m : Model) : Model :=
  { m with grads := m.grads.map fun _ => none }

/-- One `(sample_input, target)` pair yielded by a loader. -/
structure Batch where
  input : Tensor
  target : LTensor
deriving DecidableEq, Repr

/-- A dataset loader: its batch sequence and the total sample count of the
underlying dataset (`len(loader.dataset)`). -/
structure Loader where
  batches : List Batch
  datasetSize : ℕ
deriving DecidableEq, Repr

/-- The tensor that actually reaches `model(...)` in `train` (lines 61–71),
`test` (lines 139–148) and `predictions` (lines 205–211): the device is
discovered from a model parameter and `Tensor.to` is called on the batch, but
its result is discarded (`.to` returns a copy, the receiver is unchanged), so
the original tensor is what the forward pass consumes. -/
def forwardArg (model : Model) (input : Tensor) : Tensor :=
  let device := model.paramDevice
  let _ := input.to device
  input

/-- Maximum entry of a row of scores. -/
def maxVal : List ℚ → ℚ
  | [] => 0
  | [x] => x
  | x :: y :: xs => max x (maxVal (y :: xs))

/-- `output.data.argmax(1)` on one row of per-class scores: the index of the
first maximal entry. -/
def argmaxIdx : List ℚ → ℕ
  | [] => 0
  | [_] => 0
  | x :: y :: xs => if maxVal (y :: xs) > x then argmaxIdx (y :: xs) + 1 else 0

/-- `pred.eq(target.data.view_as(pred)).sum().item()`: how many samples have
arg-max predicted class equal to their target label. -/
def correctCount (output : List (List ℚ)) (targets : List ℕ) : ℕ :=
  ((output.zip targets).filter fun p => argmaxIdx p.1 == p.2).length

/-- The `{loss, accuracy}` record `train` returns. -/
structure TrainMetrics where
  loss : ℚ
  accuracy : ℚ
deriving DecidableEq, Repr

/-- The `{nll, loss, accuracy}` record `test` returns. -/
structure TestMetrics where
  nll : ℚ
  loss : ℚ
  accuracy : ℚ
deriving DecidableEq, Repr

/-- The per-batch accumulation loop of `test` (lines 141–157): forward pass,
`nll = criterion(output, target)`, `loss = nll.clone()` plus the regularizer
value when present, then accumulate `nll_sum`, `loss_sum` and `correct`.
There is no backward pass and no optimizer in sight: the model is only read.
`fwd` is the external evaluation-mode forward primitive (it mutates nothing),
`crit` the criterion. -/
def testLoop (fwd : Model → Tensor → List (List ℚ))
    (crit : List (List ℚ) → List ℕ → ℚ) (reg : Option (Model → ℚ))
    (model : Model) : List Batch → ℚ × ℚ × ℕ → ℚ × ℚ × ℕ
  | [], acc => acc
  | b :: rest, (nllSum, lossSum, correct) =>
    let output := fwd model (forwardArg model b.input)
    let nll := crit output b.target.labels
    let loss := match reg with
      | some r => nll + r model
      | none => nll
    testLoop fwd crit reg model rest
      (nllSum + nll * (b.input.size0 : ℚ), lossSum + loss * (b.input.size0 : ℚ),
        correct + correctCount output b.target.labels)

/-- `test(test_loader, model, criterion, regularizer)`: set evaluation mode,
run one pass accumulating the sums, normalize by the dataset size. Returns the
model as the pass leaves it together with the metrics. -/
def test (fwd : Model → Tensor → List (List ℚ))
    (crit : List (List ℚ) → List ℕ → ℚ) (reg : Option (Model → ℚ))
    (loader : Loader) (model : Model) : Model × TestMetrics :=
  let model := { model with training := false }
  let acc := testLoop fwd crit reg model loader.batches (0, 0, 0)
  (model,
    { nll := acc.1 / (loader.datasetSize : ℚ),
      loss := acc.2.1 / (loader.datasetSize : ℚ),
      accuracy := (acc.2.2 : ℚ) * 100 / (loader.datasetSize : ℚ) })

/-- The per-batch body of `train` (lines 54–83) iterated over the loader, with
the batch index `i` (for `lr_schedule(i / num_iters)`) and the running
`loss_sum` / `correct` accumulators. `fwd` is the external forward primitive,
`crit` the criterion, and `backstep` the external
`loss.backward(); optimizer.step()` autograd primitive, which may update the
model and the optimizer from the loss value. -/
def trainLoop (fwd : Model → Tensor → List (List ℚ))
    (crit : List (List ℚ) → List ℕ → ℚ)
    (backstep : Model → Optimizer → ℚ → Model × Optimizer)
    (reg : Option (Model → ℚ)) (sched : Option (ℚ → ℚ)) (numIters : ℕ) :
    List Batch → ℕ → Model → Optimizer → ℚ × ℕ → (Model × Optimizer) × ℚ × ℕ
  | [], _, model, opt, acc => ((model, opt), acc)
  | b :: rest, i, model, opt, (lossSum, correct) =>
    let opt1 := match sched with
      | some f => (adjust_learning_rate opt (f ((i : ℚ) / (numIters : ℚ)))).1
      | none => opt
    let model1 := zeroGrad model
    let output := fwd model1 (forwardArg model1 b.input)
    let loss0 := crit output b.target.labels
    let loss := match reg with
      | some r => loss0 + r model1
      | none => loss0
    let ms := backstep model1 opt1 loss
    trainLoop fwd crit backstep reg sched numIters rest (i + 1) ms.1 ms.2
      (lossSum + loss * (b.input.size0 : ℚ),
        correct + correctCount output b.target.labels)

/-- `train(train_loader, model, optimizer, criterion, regularizer,
lr_schedule)`: set training mode, run the loop over all batches, normalize the
accumulators by the dataset size. -/
def train (fwd : Model → Tensor → List (List ℚ))
    (crit : List (List ℚ) → List ℕ → ℚ)
    (backstep : Model → Optimizer → ℚ → Model × Optimizer)
    (reg : Option (Model → ℚ)) (sched : Option (ℚ → ℚ))
    (loader : Loader) (model : Model) (opt : Optimizer) :
    (Model × Optimizer) × TrainMetrics :=
  let numIters := loader.batches.length
  let model := { model with training := true }
  let out := trainLoop fwd crit backstep reg sched numIters loader.batches 0 model opt (0, 0)
  (out.1,
    { loss := out.2.1 / (loader.datasetSize : ℚ),
      accuracy := (out.2.2 : ℚ) * 100 / (loader.datasetSize : ℚ) })

/-- The claim's view of one `train` pass: the list of per-batch
`(loss value, batch size, correct count)` triples, where each loss value is
the criterion output plus the regularizer value when one is supplied, and the
model/optimizer evolve through the same external primitives. -/
def trainBatchStats (fwd : Model → Tensor → List (List ℚ))
    (crit : List (List ℚ) → List ℕ → ℚ)
    (backstep : Model → Optimizer → ℚ → Model × Optimizer)
    (reg : Option (Model → ℚ)) (sched : Option (ℚ → ℚ)) (numIters : ℕ) :
    List Batch → ℕ → Model → Optimizer → List (ℚ × ℕ × ℕ)
  | [], _, _, _ => []
  | b :: rest, i, model, opt =>
    let opt1 := match sched with
      | some f => (adjust_learning_rate opt (f ((i : ℚ) / (numIters : ℚ)))).1
      | none => opt
    let model1 := zeroGrad model
    let output := fwd model1 (forwardArg model1 b.input)
    let loss0 := crit output b.target.labels
    let loss := match reg with
      | some r => loss0 + r model1
      | none => loss0
    let ms := backstep model1 opt1 loss
    (loss, b.input.size0, correctCount output b.target.labels) ::
      trainBatchStats fwd crit backstep reg sched numIters rest (i + 1) ms.1 ms.2

/-- C4: `test` sets the model to evaluation mode, and its single pass performs
no parameter update and produces no gradient state: the returned model has
`training = false` and carries the input model's parameters, gradient slots,
submodule states and device unchanged. -/
theorem test_eval_mode_and_frame (fwd : Model → Tensor → List (List ℚ))
    (crit : List (List ℚ) → List ℕ → ℚ) (reg : Option (Model → ℚ))
    (loader : Loader) (model : Model) :
    (test fwd crit reg loader model).1.training = false ∧
    (test fwd crit reg loader model).1.params = model.params ∧
    (test fwd crit reg loader model).1.grads = model.grads ∧
    (test fwd crit reg loader model).1.modules = model.modules ∧
    (test fwd crit reg loader model).1.paramDevice = model.paramDevice :=
  ⟨rfl, rfl, rfl, rfl, rfl⟩

/-- A model whose parameters live on the `cuda` device. -/
def cudaModel : Model :=
  { modules := [.plain 7], training := true, paramDevice := .cuda,
    params := [[1, 2]], grads := [none] }

/-- A batch input tensor residing on the `cpu` device. -/
def cpuInput : Tensor :=
  { device := .cpu, data := [[1, 2]] }

/-- C5 fails on the code: line 64 of `train` calls `sample_input.to(device)`
but discards the result — `Tensor.to` returns a copy and does not mutate its
receiver — so the tensor consumed by the forward pass is the original one, not
a copy on the model's device. Concretely, with model parameters on `cuda` and
a `cpu` input batch, the tensor reaching `model(...)` still resides on `cpu`,
even though the discarded copy produced by `Tensor.to` is on `cuda`. -/
theorem train_device_move_discarded :
    (forwardArg cudaModel cpuInput).device = Device.cpu ∧
    cudaModel.paramDevice = Device.cuda ∧
    (forwardArg cudaModel cpuInput).device ≠ cudaModel.paramDevice ∧
    (cpuInput.to cudaModel.paramDevice).device = cudaModel.paramDevice := by
  refine ⟨rfl, rfl, ?_, rfl⟩
  decide

lemma trainLoop_sums (fwd : Model → Tensor → List (List ℚ))
    (crit : List (List ℚ) → List ℕ → ℚ)
    (backstep : Model → Optimizer → ℚ → Model × Optimizer)
    (reg : Option (Model → ℚ)) (sched : Option (ℚ → ℚ)) (numIters : ℕ)
    (bs : List Batch) (i : ℕ) (model : Model) (opt : Optimizer) (ls : ℚ) (c : ℕ) :
    (trainLoop fwd crit backstep reg sched numIters bs i model opt (ls, c)).2
      = (ls + ((trainBatchStats fwd crit backstep reg sched numIters bs i model opt).map
            (fun s => s.1 * (s.2.1 : ℚ))).sum,
         c + ((trainBatchStats fwd crit backstep reg sched numIters bs i model opt).map
            (fun s => s.2.2)).sum) := by
  induction bs generalizing i model opt ls c with
  | nil => simp [trainLoop, trainBatchStats]
  | cons b rest ih =>
    simp only [trainLoop, trainBatchStats, ih, List.map_cons, List.sum_cons,
      Prod.mk.injEq]
    constructor <;> ring

/-- C6: on a loader whose dataset has `N > 0` samples, `train` returns exactly
`{loss := S / N, accuracy := 100 * C / N}`, where `S` sums each batch's loss
value (criterion output plus the regularizer value when one is supplied) times
that batch's size, and `C` is the total count of samples whose arg-max
predicted class equals the target. -/
theorem train_metrics_formula (fwd : Model → Tensor → List (List ℚ))
    (crit : List (List ℚ) → List ℕ → ℚ)
    (backstep : Model → Optimizer → ℚ → Model × Optimizer)
    (reg : Option (Model → ℚ)) (sched : Option (ℚ → ℚ))
    (loader : Loader) (model : Model) (opt : Optimizer)
    (hN : 0 < loader.datasetSize) (hne : loader.batches ≠ []) :
    (train fwd crit backstep reg sched loader model opt).2 =
      { loss := ((trainBatchStats fwd crit backstep reg sched loader.batches.length
            loader.batches 0 { model with training := true } opt).map
              (fun s => s.1 * (s.2.1 : ℚ))).sum / (loader.datasetSize : ℚ),
        accuracy := 100 * (Nat.cast (((trainBatchStats fwd crit backstep reg sched
            loader.batches.length loader.batches 0 { model with training := true }
              opt).map (fun s => s.2.2)).sum) : ℚ) / (loader.datasetSize : ℚ) } := by
  simp only [train, trainLoop_sums]
  congr 1
  · ring
  · push_cast
    ring

theorem train_metrics_formula_witness :
    0 < (2 : ℕ) ∧
    ([{ input := { device := Device.cpu, data := [[1, 2], [3, 4]] },
        target := { device := Device.cpu, labels := [1, 0] } }] : List Batch) ≠ [] ∧
    (train (fun _ t => t.data) (fun _ _ => 6) (fun m o _ => (m, o)) none none
        { batches := [{ input := { device := Device.cpu, data := [[1, 2], [3, 4]] },
                        target := { device := Device.cpu, labels := [1, 0] } }],
          datasetSize := 2 } samplePlainModel { lrGroups := [1] }).2 =
      { loss := 6, accuracy := 50 } := by
  have h := train_metrics_formula (fun _ t => t.data) (fun _ _ => 6)
    (fun m o _ => (m, o)) none none
    { batches := [{ input := { device := Device.cpu, data := [[1, 2], [3, 4]] },
                    target := { device := Device.cpu, labels := [1, 0] } }],
      datasetSize := 2 } samplePlainModel { lrGroups := [1] }
    (by norm_num) (by simp)
  refine ⟨by norm_num, by simp, ?_⟩
  rw [h]
  norm_num [trainBatchStats, correctCount, argmaxIdx, maxVal, forwardArg,
    zeroGrad, Tensor.size0, samplePlainModel]

/-! ### `predictions` -/

/-- A Python runtime error surfaced by the embedding. -/
inductive PyError where
  | nameError (name : String)
  | valueError (msg : String)
deriving DecidableEq, Repr

/-- The binding Python's scoping rules give the name `output` inside
`predictions`' loop body: the defining statement
`output = model(sample_input, **kwargs)` (line 211) is commented out in the
source, so no statement of the function binds `output` and reading it raises
`NameError`. -/
def predictionsOutputBinding : Option (List (List ℚ)) :=
  none

/-- The loop of `predictions` (lines 203–214): per batch, discover the device
and call `Tensor.to` (result discarded), then evaluate
`probs = F.softmax(output, dim=1)` — which reads the name `output`. `softmax`
stands for the external `F.softmax` primitive. -/
def predictionsLoop (softmax : List (List ℚ) → List (List ℚ)) (model : Model) :
    List Batch → List (List ℚ) × List ℕ → Except PyError (List (List ℚ) × List ℕ)
  | [], acc => .ok acc
  | b :: rest, acc =>
    let _ := forwardArg model b.input
    match predictionsOutputBinding with
    | none => .error (.nameError "output")
    | some output =>
      predictionsLoop softmax model rest
        (acc.1 ++ softmax output, acc.2 ++ b.target.labels)

/-- `predictions(test_loader, model)`: set evaluation mode, run the loop, then
stack the collected predictions and targets (`np.vstack` / `np.concatenate`
fail on an empty collection). -/
def predictions (softmax : List (List ℚ) → List (List ℚ)) (model : Model)
    (loader : List Batch) : Except PyError (List (List ℚ) × List ℕ) :=
  let model := { model with training := false }
  match predictionsLoop softmax model loader ([], []) with
  | .error e => .error e
  | .ok acc =>
    if acc.1.isEmpty then .error (.valueError "need at least one array to concatenate")
    else .ok acc

/-- C10: on any loader yielding at least one batch, `predictions` fails on the
first batch with an unbound-name error for `output` — its defining model call
is commented out — and so never returns a result. -/
theorem predictions_unbound_output (softmax : List (List ℚ) → List (List ℚ))
    (model : Model) (loader : List Batch) (h : loader ≠ []) :
    predictions softmax model loader = .error (.nameError "output") := by
  cases loader with
  | nil => exact absurd rfl h
  | cons b rest => rfl

theorem predictions_unbound_output_witness :
    ([{ input := { device := Device.cpu, data := [[1]] },
        target := { device := Device.cpu, labels := [0] } }] : List Batch) ≠ [] ∧
    predictions id samplePlainModel
        [{ input := { device := Device.cpu, data := [[1]] },
           target := { device := Device.cpu, labels := [0] } }]
      = .error (.nameError "output") :=
  ⟨by simp, predictions_unbound_output id samplePlainModel _ (by simp)⟩

end DnnModeConnectivity
